import Mathlib

/-!
Verification of the diy_typeless streaming-transcription core.

This file gives a shallow embedding, in Lean 4, of the parts of the
Rust sources that the specification's claims are about:

* `src/core/src/retry.rs` — the `with_retry` exponential-backoff helper;
* `src/core/src/audio.rs` — the `resample_linear` linear-interpolation
  resampler (machine floats are modelled as exact rationals);
* `src/core/src/qwen_asr_ffi.rs` — the global callback registry, the
  `set_token_callback` / `clear_token_callback` operations, and the
  `token_callback_trampoline_registry` dispatch (Rust's `Any` type ids
  are modelled by an explicit type tag);
* `src/core/src/streaming_asr.rs` — the `StreamingHandle` stop/poll
  lifecycle and the audio-callback buffer-append loop of
  `build_live_stream` (the live buffer is modelled as a list plus the
  `n_samples`/`capacity` fields of the C struct);
* `src/core/src/lib.rs` — the session registry
  (`start_streaming_session`, `get_streaming_text`,
  `is_streaming_session_active`, `stop_streaming_session`).

Stateful Rust code is modelled by explicit state passing; fallible code
returns `Except`; thread joins are modelled by the value the joined
thread returned (or a marker that it panicked).
-/

/- ## Retry helper (src/core/src/retry.rs) -/

/-- Outcome classification of one HTTP attempt, mirroring `HttpResult<T>`
in `retry.rs`. -/
inductive HttpResult (T : Type) where
  | Success (value : T)
  | Retryable
  | NonRetryable (msg : String)
deriving DecidableEq

/-- Loop body of `with_retry`.  The Rust `operation` closure is `FnMut`,
so successive invocations may differ: the embedding passes the invocation
index to `operation`.  `fuel` is the number of attempts still allowed;
`attempt` is the index of the next invocation.  Besides the Rust
function's `Result`, the model returns how many times `operation` was
invoked.  The `sleep` between retryable failures has no observable
effect on the returned value and is not modelled. -/
def withRetryGo {T : Type} (operation : Nat → HttpResult T) (error_message : String) :
    Nat → Nat → Except String T × Nat
  | _, 0 => (Except.error (error_message ++ ": retries exceeded"), 0)
  | attempt, fuel + 1 =>
    match operation attempt with
    | HttpResult.Success v => (Except.ok v, 1)
    | HttpResult.NonRetryable msg => (Except.error msg, 1)
    | HttpResult.Retryable =>
      let rest := withRetryGo operation error_message (attempt + 1) fuel
      (rest.1, rest.2 + 1)

/-- Model of `with_retry` from `retry.rs`: run `operation` up to
`max_attempts` times, returning the first `Success`/`NonRetryable`
immediately and a terminal "retries exceeded" error once the attempts
are exhausted, together with the number of invocations made. -/
def with_retry {T : Type} (max_attempts : Nat) (operation : Nat → HttpResult T)
    (error_message : String) : Except String T × Nat :=
  withRetryGo operation error_message 0 max_attempts

/- ## Linear-interpolation resampler (src/core/src/audio.rs) -/

/-- Loop body of `resample_linear`: the output sample at index `i`.
Mirrors the body of `for i in 0..output_len` in `audio.rs`:
`src_pos = i * ratio`, `idx = src_pos.floor() as usize`,
`frac = src_pos - idx`, `s0 = input.get(idx) or 0.0`,
`s1 = input.get(idx + 1) or s0`, output `s0 + (s1 - s0) * frac`. -/
def resample_at (input : List ℚ) (ratio : ℚ) (i : Nat) : ℚ :=
  let src_pos : ℚ := (i : ℚ) * ratio
  let idx : Nat := (⌊src_pos⌋).toNat
  let frac : ℚ := src_pos - (idx : ℚ)
  let s0 : ℚ := input.getD idx 0
  let s1 : ℚ := input.getD (idx + 1) s0
  s0 + (s1 - s0) * frac

/-- Model of `resample_linear` from `audio.rs`.  The `f32`/`f64`
arithmetic of the source is modelled exactly over `ℚ`; `floor() as usize`
is `Int.toNat ∘ Int.floor` (saturating at zero, as the Rust cast does for
the values produced here). -/
def resample_linear (input : List ℚ) (src_rate dst_rate : Nat) : List ℚ :=
  if input = [] ∨ src_rate = dst_rate then input
  else
    (List.range ((⌊(input.length : ℚ) / ((src_rate : ℚ) / (dst_rate : ℚ))⌋).toNat)).map
      (resample_at input ((src_rate : ℚ) / (dst_rate : ℚ)))

/- ## Qwen FFI callback registry (src/core/src/qwen_asr_ffi.rs) -/

/-- Type tags modelling the Rust `TypeId`s relevant to the callback
registry.  `set_token_callback` stores `Box::new(callback)` where
`callback` has the caller's concrete closure type, so the `Any` payload
carries that concrete closure's `TypeId` (`anonClosure`); the trampoline
downcasts to `Box<dyn FnMut(String) + Send>`, a different type with its
own distinct `TypeId` (`boxDynFnMut`). -/
inductive TypeTag where
  | anonClosure
  | boxDynFnMut
deriving DecidableEq

/-- Observable state a registered streaming callback acts on: the
session's accumulated text (`accumulated_text` behind its mutex) and the
list of tokens passed to the caller's `on_text` callback, in call
order. -/
structure TokenObs where
  accumulated : String
  onTextCalls : List String
deriving DecidableEq

/-- Model of one `Box<dyn Any + Send>` value stored in
`CALLBACK_REGISTRY`: the `TypeId` of the stored concrete value plus the
effect of invoking the stored callback with one token. -/
structure StoredAny where
  tag : TypeTag
  run : String → TokenObs → TokenObs

/-- What `QwenTranscriber::set_token_callback` boxes into the registry:
`Box::new(callback)` coerced to `Box<dyn Any + Send>`, so the stored
`TypeId` is the caller's concrete closure type. -/
def set_token_callback_stores (f : String → TokenObs → TokenObs) : StoredAny :=
  { tag := TypeTag.anonClosure, run := f }

/-- Model of `token_callback_trampoline_registry`: look up the engine's
entry and run it only when `downcast_mut::<Box<dyn FnMut(String) + Send>>()`
succeeds, i.e. only when the stored `TypeId` is exactly that of
`Box<dyn FnMut(String) + Send>`; otherwise do nothing. -/
def token_callback_trampoline_registry (entry : Option StoredAny) (token : String)
    (st : TokenObs) : TokenObs :=
  match entry with
  | none => st
  | some cb => if cb.tag = TypeTag.boxDynFnMut then cb.run token st else st

/-- The closure `start_streaming_transcription` registers via
`set_token_callback`: append the token to the accumulated text under the
text lock, release it, then invoke the caller's `on_text` with the
token. -/
def streaming_on_token (token : String) (st : TokenObs) : TokenObs :=
  { accumulated := st.accumulated ++ token, onTextCalls := st.onTextCalls ++ [token] }

/-- The registry entry present for the engine while a streaming session
is running. -/
def streamingStoredCallback : StoredAny :=
  set_token_callback_stores streaming_on_token

/-- Engine-side token emission: the native live call invokes the
registered trampoline once per emitted token, in emission order, starting
from an empty accumulator and no `on_text` calls. -/
def runEmissions (entry : Option StoredAny) (tokens : List String) : TokenObs :=
  tokens.foldl (fun st t => token_callback_trampoline_registry entry t st) ⟨"", []⟩

/-- Entry list of the global `CALLBACK_REGISTRY` `HashMap`, keyed by the
engine's context pointer.  `hmInsert` mirrors `HashMap::insert`: replace
the value if the key is present, otherwise add an entry. -/
def hmInsert {V : Type} (k : Nat) (v : V) : List (Nat × V) → List (Nat × V)
  | [] => [(k, v)]
  | (k', v') :: rest => if k' = k then (k, v) :: rest else (k', v') :: hmInsert k v rest

/-- Mirror of `HashMap::remove`: drop the entry stored under `k`, if
any. -/
def hmRemove {V : Type} (k : Nat) : List (Nat × V) → List (Nat × V)
  | [] => []
  | (k', v') :: rest => if k' = k then rest else (k', v') :: hmRemove k rest

/-- Registry lookup by key (`HashMap::get_mut` as used by the
trampoline). -/
def hmLookup {V : Type} (k : Nat) (r : List (Nat × V)) : Option V :=
  (r.find? (fun p => p.1 == k)).map (fun p => p.2)

/-- Number of registry entries stored under key `k`. -/
def countKey {V : Type} (k : Nat) : List (Nat × V) → Nat
  | [] => 0
  | (k', _) :: rest => (if k' = k then 1 else 0) + countKey k rest

/-- Model of `QwenTranscriber::set_token_callback` acting on the
registry: it first runs `clear_token_callback` (removing any existing
entry for the engine, which drops the old box) and then inserts the new
one under the engine's key. -/
def set_token_callback_reg {V : Type} (k : Nat) (v : V) (r : List (Nat × V)) :
    List (Nat × V) :=
  hmInsert k v (hmRemove k r)

/-- Model of `QwenTranscriber::clear_token_callback` acting on the
registry. -/
def clear_token_callback_reg {V : Type} (k : Nat) (r : List (Nat × V)) : List (Nat × V) :=
  hmRemove k r

/-- One call against the callback registry: some engine `k` either sets
a callback `v` or clears its callback. -/
inductive CbOp (V : Type) where
  | set (k : Nat) (v : V)
  | clear (k : Nat)

/-- Run a sequence of `set_token_callback` / `clear_token_callback`
calls against the registry. -/
def applyCbOps {V : Type} : List (CbOp V) → List (Nat × V) → List (Nat × V)
  | [], r => r
  | CbOp.set k v :: ops, r => applyCbOps ops (set_token_callback_reg k v r)
  | CbOp.clear k :: ops, r => applyCbOps ops (clear_token_callback_reg k r)

/- ## Errors (src/core/src/error.rs, plus the variants the streaming core constructs) -/

/-- Model of `CoreError`, restricted to the variants the embedded code
constructs (`streaming_asr.rs`, `qwen_asr_ffi.rs`, `lib.rs`). -/
inductive CoreError where
  | AudioProcessing (detail : String)
  | AudioCapture (detail : String)
  | Transcription (detail : String)
  | Config (detail : String)
deriving DecidableEq

/-- The detail string carried by an error. -/
def CoreError.detail : CoreError → String
  | CoreError.AudioProcessing d => d
  | CoreError.AudioCapture d => d
  | CoreError.Transcription d => d
  | CoreError.Config d => d

/-- Substring occurrence test: does `needle` occur contiguously inside
`hay`?  Used to formalize "the error carries the accumulated text as
context". -/
def listHasInfix (needle hay : List Char) : Bool :=
  (List.range (hay.length + 1)).any (fun i => (hay.drop i).take needle.length == needle)

/-- An error "carries `text` as context" when `text` occurs inside the
error's detail string. -/
def errorCarriesText (e : CoreError) (text : String) : Prop :=
  listHasInfix text.data e.detail.data = true

/- ## StreamingHandle (src/core/src/streaming_asr.rs) -/

/-- Result of joining a finished thread: the thread's returned value, or
the marker that it panicked (`JoinHandle::join` returning `Err`). -/
inductive JoinOutcome (α : Type) where
  | panicked
  | returned (value : α)
deriving DecidableEq

/-- State of a `StreamingHandle` when `stop` / `current_text` /
`is_running` is called.  The two `JoinHandle` options of the struct are
`Some` from construction until `stop` (the only taker) consumes them, so
the model carries the outcome each join will produce.  `accumulated` is
the contents of `accumulated_text`; `stopFlag` is the atomic stop
flag. -/
structure HandleState where
  stopFlag : Bool
  audioJoin : JoinOutcome (Except CoreError Unit)
  inferenceJoin : JoinOutcome (Except CoreError String)
  accumulated : String

/-- Model of `StreamingHandle::stop`: set the stop flag, join the audio
thread first — propagating its error (or a panic-converted error)
without joining the inference thread — then join the inference thread
and return its result.  Returns the Rust function's `Result` together
with the handle state it leaves behind. -/
def StreamingHandle.stop (h : HandleState) : Except CoreError String × HandleState :=
  let h' := { h with stopFlag := true }
  match h'.audioJoin with
  | JoinOutcome.panicked =>
    (Except.error (CoreError.Transcription "Audio thread panicked"), h')
  | JoinOutcome.returned (Except.error e) => (Except.error e, h')
  | JoinOutcome.returned (Except.ok _) =>
    match h'.inferenceJoin with
    | JoinOutcome.panicked =>
      (Except.error (CoreError.Transcription "Inference thread panicked"), h')
    | JoinOutcome.returned res => (res, h')

/-- Model of `StreamingHandle::current_text`: a snapshot of the
accumulated text. -/
def current_text (h : HandleState) : String :=
  h.accumulated

/-- Model of `StreamingHandle::is_running`: the negation of the stop
flag. -/
def is_running (h : HandleState) : Bool :=
  !h.stopFlag

/-- Closure body of the audio thread spawned by
`start_streaming_transcription`: on a capture error it stores that error
in the `audio_error` slot and returns the generic
`AudioProcessing("Audio capture failed")` error; on success it returns
`Ok(())`.  The pair is (thread return value, `audio_error` slot). -/
def audioThreadBody (captureResult : Except CoreError Unit) :
    Except CoreError Unit × Option CoreError :=
  match captureResult with
  | Except.ok _ => (Except.ok (), none)
  | Except.error e =>
    (Except.error (CoreError.AudioProcessing "Audio capture failed"), some e)

/-- Handle state of a streaming session after the engine has emitted
`tokens` and the audio capture loop finished with `captureResult`.  The
accumulated text is whatever the registry trampoline delivered.
Modelled from the spec: the engine's live call (an external C library,
not under src/) returns "the final assembled text on completion"
(§4.3), i.e. the concatenation of the emitted tokens. -/
def runStreamingSession (tokens : List String) (captureResult : Except CoreError Unit) :
    HandleState :=
  { stopFlag := false,
    audioJoin := JoinOutcome.returned (audioThreadBody captureResult).1,
    inferenceJoin := JoinOutcome.returned (Except.ok (String.join tokens)),
    accumulated := (runEmissions (some streamingStoredCallback) tokens).accumulated }

/- ## Session registry (src/core/src/lib.rs) -/

/-- One registered streaming session: its handle state plus whether the
`Arc` holding the handle is also referenced elsewhere (in which case
`Arc::try_unwrap` fails). -/
structure RegSession where
  handle : HandleState
  shared : Bool

/-- Registry state: the `NEXT_SESSION_ID` counter and the
`ACTIVE_STREAMING_SESSIONS` vector of `(id, handle)` pairs. -/
structure SessionRegistry where
  nextId : Nat
  sessions : List (Nat × RegSession)

/-- Model of `start_streaming_session`, success path: allocate the next
session id (`fetch_add` returns the previous counter value), push the
session at the end of the vector, and return the id. -/
def start_streaming_session (r : SessionRegistry) (s : RegSession) :
    Nat × SessionRegistry :=
  (r.nextId, { nextId := r.nextId + 1, sessions := r.sessions ++ [(r.nextId, s)] })

/-- Lookup used by `get_streaming_text` and
`is_streaming_session_active`:
`sessions.iter().find(|(id, _)| *id == session_id)`. -/
def sessionFind (sid : Nat) (l : List (Nat × RegSession)) : Option (Nat × RegSession) :=
  l.find? (fun p => p.1 == sid)

/-- Model of `get_streaming_text`: the session's current text when it is
registered, the empty string otherwise. -/
def get_streaming_text (r : SessionRegistry) (sid : Nat) : String :=
  match sessionFind sid r.sessions with
  | some p => current_text p.2.handle
  | none => ""

/-- Model of `is_streaming_session_active`: `is_running` of the session
when it is registered, `false` otherwise. -/
def is_streaming_session_active (r : SessionRegistry) (sid : Nat) : Bool :=
  match sessionFind sid r.sessions with
  | some p => is_running p.2.handle
  | none => false

/-- Composition of `position` and `Vec::remove` as used by
`stop_streaming_session`: find the first entry whose id matches and
return it together with the vector with that entry removed (the order of
the other entries is preserved). -/
def removeFirst (sid : Nat) : List (Nat × RegSession) →
    Option (RegSession × List (Nat × RegSession))
  | [] => none
  | (k, s) :: rest =>
    if k = sid then some (s, rest)
    else (removeFirst sid rest).map (fun q => (q.1, (k, s) :: q.2))

/-- Model of `stop_streaming_session`: remove the session from the
vector; if the id is absent fail with "not found"; if the session's
`Arc` is still shared, push the pair back at the end of the vector and
fail with "still in use"; otherwise stop the handle and return its
result. -/
def stop_streaming_session (r : SessionRegistry) (sid : Nat) :
    Except CoreError String × SessionRegistry :=
  match removeFirst sid r.sessions with
  | none => (Except.error (CoreError.Transcription "Streaming session not found"), r)
  | some (s, rest) =>
    if s.shared then
      (Except.error (CoreError.Transcription "Streaming session is still in use"),
        { r with sessions := rest ++ [(sid, s)] })
    else
      ((StreamingHandle.stop s.handle).1, { r with sessions := rest })

/-- Pairwise-distinct session ids (established by the monotone id
counter; taken as an explicit hypothesis where needed). -/
def keysNodup (l : List (Nat × RegSession)) : Prop :=
  (l.map (fun p => p.1)).Nodup

/- ## Live audio buffer append path (src/core/src/streaming_asr.rs, build_live_stream) -/

/-- Model of the C `qwen_live_audio_t` buffer as the audio callback sees
it: the valid samples `samples[0 .. n_samples)` as a list, plus the
`n_samples` and `capacity` fields of the struct. -/
structure QwenLiveAudioModel where
  samples : List ℚ
  n_samples : Nat
  capacity : Nat
deriving DecidableEq

/-- The per-sample append loop inside the audio data callback of
`build_live_stream`, already holding the C mutex.  For each mono frame
value: advance the resample accumulator by one; when it reaches the
ratio, append the sample — first doubling `capacity` when the buffer is
full (`growOk` says whether `realloc` succeeds; on failure the callback
unlocks and returns, dropping the current sample and the rest of the
block) — and subtract the ratio.  Returns the buffer and the
accumulator left for the next callback. -/
def liveAppendLoop (growOk : Bool) (ratio : ℚ) :
    QwenLiveAudioModel → ℚ → List ℚ → QwenLiveAudioModel × ℚ
  | buf, acc, [] => (buf, acc)
  | buf, acc, sample :: rest =>
    let acc' := acc + 1
    if ratio ≤ acc' then
      if buf.capacity ≤ buf.n_samples then
        if growOk then
          liveAppendLoop growOk ratio
            { samples := buf.samples ++ [sample], n_samples := buf.n_samples + 1,
              capacity := buf.capacity * 2 }
            (acc' - ratio) rest
        else (buf, acc')
      else
        liveAppendLoop growOk ratio
          { samples := buf.samples ++ [sample], n_samples := buf.n_samples + 1,
            capacity := buf.capacity }
          (acc' - ratio) rest
    else liveAppendLoop growOk ratio buf acc' rest

/-- Model of the whole data callback installed by `build_live_stream`.
The input block is given as its frames (`data.chunks(channels)` in the
source, each frame holding the interleaved channel samples).  If the
stop flag is set the block is dropped; otherwise each frame is mixed
down to one mono sample (`sum / channels`) and fed to the append loop
under the buffer lock.  The callback's only outputs are the buffer and
the accumulator: it has no channel through which to report an error. -/
def audioDataCallback (growOk : Bool) (channels : Nat) (ratio : ℚ) (stopFlag : Bool)
    (buf : QwenLiveAudioModel) (acc : ℚ) (frames : List (List ℚ)) :
    QwenLiveAudioModel × ℚ :=
  if stopFlag then (buf, acc)
  else liveAppendLoop growOk ratio buf acc
    (frames.map (fun c => c.sum / (channels : ℚ)))

/-- A finished session handle used in concrete instances below: both
threads returned successfully and the final text is "x". -/
def okHandle : HandleState :=
  { stopFlag := false,
    audioJoin := JoinOutcome.returned (Except.ok ()),
    inferenceJoin := JoinOutcome.returned (Except.ok "x"),
    accumulated := "x" }

/-- A registered session whose `Arc` has no other references. -/
def okSession : RegSession :=
  { handle := okHandle, shared := false }

/-- A registered session whose `Arc` is still referenced elsewhere. -/
def sharedSession : RegSession :=
  { handle := okHandle, shared := true }

/-- A concrete registry with two non-shared sessions. -/
def exampleRegistry : SessionRegistry :=
  { nextId := 5, sessions := [(1, okSession), (2, okSession)] }

/-- A concrete registry with one still-shared session. -/
def sharedRegistry : SessionRegistry :=
  { nextId := 5, sessions := [(1, sharedSession)] }

/- ## Theorems -/

theorem withRetryGo_retry_then_success {T : Type} (operation : Nat → HttpResult T)
    (msg : String) (v : T) :
    ∀ (k fuel start : Nat), (∀ i, i < k → operation (start + i) = HttpResult.Retryable) →
      operation (start + k) = HttpResult.Success v → k < fuel →
      withRetryGo operation msg start fuel = (Except.ok v, k + 1) := by
  intro k
  induction k with
  | zero =>
    intro fuel start _ hsucc hlt
    obtain ⟨f, rfl⟩ : ∃ f, fuel = f + 1 := ⟨fuel - 1, by omega⟩
    have hs : operation start = HttpResult.Success v := by simpa using hsucc
    simp [withRetryGo, hs]
  | succ k ih =>
    intro fuel start hretry hsucc hlt
    obtain ⟨f, rfl⟩ : ∃ f, fuel = f + 1 := ⟨fuel - 1, by omega⟩
    have h0 : operation start = HttpResult.Retryable := by
      have := hretry 0 (by omega)
      simpa using this
    have hrest : withRetryGo operation msg (start + 1) f = (Except.ok v, k + 1) := by
      apply ih f (start + 1)
      · intro i hi
        have := hretry (i + 1) (by omega)
        rwa [show start + (i + 1) = start + 1 + i by omega] at this
      · rwa [show start + (k + 1) = start + 1 + k by omega] at hsucc
      · omega
    simp [withRetryGo, h0, hrest]

theorem withRetryGo_always_retryable {T : Type} (operation : Nat → HttpResult T)
    (msg : String) (h : ∀ i, operation i = HttpResult.Retryable) :
    ∀ (fuel start : Nat),
      withRetryGo operation msg start fuel = (Except.error (msg ++ ": retries exceeded"), fuel) := by
  intro fuel
  induction fuel with
  | zero => intro start; rfl
  | succ f ih =>
    intro start
    rw [withRetryGo, h start]
    simp [ih (start + 1)]

/-- C4: with an operation that is `Retryable` exactly `k` times
(`k < max_attempts`) and then `Success v`, `with_retry` returns `Ok v`
after exactly `k + 1` invocations; with an always-`Retryable` operation
and `max_attempts = 3` it makes exactly 3 invocations and returns the
"retries exceeded" error; with `NonRetryable m` on the first call it
makes exactly one invocation and the error carries `m`. -/
theorem c4_with_retry {T : Type} (op1 op2 op3 : Nat → HttpResult T)
    (k max_attempts : Nat) (v : T) (m msg : String) :
    ((∀ i, i < k → op1 i = HttpResult.Retryable) → op1 k = HttpResult.Success v →
      k < max_attempts → with_retry max_attempts op1 msg = (Except.ok v, k + 1)) ∧
    ((∀ i, op2 i = HttpResult.Retryable) →
      with_retry 3 op2 msg = (Except.error (msg ++ ": retries exceeded"), 3)) ∧
    (op3 0 = HttpResult.NonRetryable m → 1 ≤ max_attempts →
      with_retry max_attempts op3 msg = (Except.error m, 1)) := by
  refine ⟨?_, ?_, ?_⟩
  · intro hretry hsucc hlt
    have := withRetryGo_retry_then_success op1 msg v k max_attempts 0
      (by intro i hi; simpa using hretry i hi) (by simpa using hsucc) hlt
    simpa [with_retry] using this
  · intro h
    simpa [with_retry] using withRetryGo_always_retryable op2 msg h 3 0
  · intro h hmax
    obtain ⟨f, rfl⟩ : ∃ f, max_attempts = f + 1 := ⟨max_attempts - 1, by omega⟩
    simp [with_retry, withRetryGo, h]

theorem c4_with_retry_witness :
    with_retry 3 (fun i => if i = 0 then HttpResult.Retryable else HttpResult.Success 7) "api"
      = (Except.ok 7, 2) ∧
    with_retry 3 (fun _ => (HttpResult.Retryable : HttpResult Nat)) "api"
      = (Except.error "api: retries exceeded", 3) ∧
    with_retry 3 (fun _ => (HttpResult.NonRetryable "bad" : HttpResult Nat)) "api"
      = (Except.error "bad", 1) := by
  obtain ⟨h1, h2, h3⟩ := c4_with_retry
    (fun i => if i = 0 then HttpResult.Retryable else HttpResult.Success 7)
    (fun _ => (HttpResult.Retryable : HttpResult Nat))
    (fun _ => (HttpResult.NonRetryable "bad" : HttpResult Nat))
    1 3 7 "bad" "api"
  refine ⟨h1 ?_ ?_ ?_, h2 ?_, h3 ?_ ?_⟩
  · intro i hi
    have hz : i = 0 := by omega
    subst hz
    rfl
  · rfl
  · omega
  · intro i
    rfl
  · rfl
  · omega

/-- C6: for a non-empty input of N samples and rates `src_rate > dst_rate`
(downsampling), `resample_linear` yields exactly `⌊N * dst_rate / src_rate⌋`
output samples, and when the output is non-empty its first sample is
within any non-negative epsilon of the first input sample (the model is
exact, so the distance is zero). -/
theorem c6_resample_linear (input : List ℚ) (src_rate dst_rate : Nat)
    (hne : input ≠ []) (hlt : dst_rate < src_rate) :
    (resample_linear input src_rate dst_rate).length = input.length * dst_rate / src_rate ∧
    (0 < (resample_linear input src_rate dst_rate).length →
      ∀ eps : ℚ, 0 ≤ eps →
        |(resample_linear input src_rate dst_rate).getD 0 0 - input.getD 0 0| ≤ eps) := by
  have hcond : ¬(input = [] ∨ src_rate = dst_rate) := by
    push_neg
    exact ⟨hne, by omega⟩
  have hkey : resample_linear input src_rate dst_rate
      = (List.range ((⌊(input.length : ℚ) / ((src_rate : ℚ) / (dst_rate : ℚ))⌋).toNat)).map
          (resample_at input ((src_rate : ℚ) / (dst_rate : ℚ))) := by
    rw [resample_linear, if_neg hcond]
  have hcast : (input.length : ℚ) / ((src_rate : ℚ) / (dst_rate : ℚ))
      = ((input.length * dst_rate : ℕ) : ℚ) / ((src_rate : ℕ) : ℚ) := by
    rw [div_div_eq_mul_div]
    push_cast
    ring
  have hlen : (resample_linear input src_rate dst_rate).length
      = input.length * dst_rate / src_rate := by
    rw [hkey, List.length_map, List.length_range, hcast, Int.floor_toNat, Nat.floor_div_nat,
      Nat.floor_natCast]
  refine ⟨hlen, ?_⟩
  intro hpos eps heps
  rw [hkey] at hpos ⊢
  rw [List.length_map, List.length_range] at hpos
  obtain ⟨n', hn⟩ : ∃ n',
      (⌊(input.length : ℚ) / ((src_rate : ℚ) / (dst_rate : ℚ))⌋).toNat = n' + 1 :=
    ⟨(⌊(input.length : ℚ) / ((src_rate : ℚ) / (dst_rate : ℚ))⌋).toNat - 1, by omega⟩
  rw [hn, List.range_succ_eq_map, List.map_cons, List.getD_cons_zero]
  have hz : resample_at input ((src_rate : ℚ) / (dst_rate : ℚ)) 0 = input.getD 0 0 := by
    simp [resample_at]
  rw [hz, sub_self, abs_zero]
  exact heps

theorem c6_resample_linear_witness :
    (resample_linear [1, 2, 3, 4] 2 1).length = 4 * 1 / 2 ∧
    |(resample_linear [1, 2, 3, 4] 2 1).getD 0 0 - ([1, 2, 3, 4] : List ℚ).getD 0 0| ≤ 0 := by
  obtain ⟨h1, h2⟩ := c6_resample_linear [1, 2, 3, 4] 2 1 (List.cons_ne_nil 1 [2, 3, 4])
    (by omega)
  refine ⟨h1, h2 ?_ 0 le_rfl⟩
  rw [h1]
  norm_num

theorem trampoline_skips_non_boxDynFnMut (entry : StoredAny)
    (hne : entry.tag ≠ TypeTag.boxDynFnMut) :
    ∀ (tokens : List String) (st : TokenObs),
      tokens.foldl (fun st t => token_callback_trampoline_registry (some entry) t st) st
        = st := by
  intro tokens
  induction tokens with
  | nil => intro st; rfl
  | cons t ts ih =>
    intro st
    rw [List.foldl_cons,
      show token_callback_trampoline_registry (some entry) t st = st from by
        simp [token_callback_trampoline_registry, hne]]
    exact ih st

/-- C1: the claim fails on the code.  The streaming session's registered
callback is never invoked: `set_token_callback` stores the concrete
closure type in the `Any` registry while the trampoline downcasts the
entry to `Box<dyn FnMut(String) + Send>`, a different `TypeId`, so the
downcast fails for every emitted token.  Hence for every token sequence
the engine emits, the caller's `on_text` is never invoked and nothing is
ever appended to the session's accumulated text. -/
theorem c1_tokens_never_delivered (tokens : List String) :
    runEmissions (some streamingStoredCallback) tokens
      = { accumulated := "", onTextCalls := [] } ∧
    streamingStoredCallback.tag ≠ TypeTag.boxDynFnMut := by
  have hne : streamingStoredCallback.tag ≠ TypeTag.boxDynFnMut := by
    simp [streamingStoredCallback, set_token_callback_stores]
  exact ⟨trampoline_skips_non_boxDynFnMut streamingStoredCallback hne tokens _, hne⟩

theorem countKey_hmInsert_ne {V : Type} (k k' : Nat) (v : V) (r : List (Nat × V))
    (hne : k' ≠ k) : countKey k (hmInsert k' v r) = countKey k r := by
  induction r with
  | nil => simp [hmInsert, countKey, hne]
  | cons p rest ih =>
    obtain ⟨a, b⟩ := p
    by_cases ha : a = k'
    · subst ha
      simp [hmInsert, countKey, hne]
    · simp [hmInsert, ha, countKey, ih]

theorem countKey_hmInsert_self {V : Type} (k : Nat) (v : V) (r : List (Nat × V)) :
    countKey k (hmInsert k v r) = max 1 (countKey k r) := by
  induction r with
  | nil => simp [hmInsert, countKey]
  | cons p rest ih =>
    obtain ⟨a, b⟩ := p
    by_cases ha : a = k
    · subst ha
      simp [hmInsert, countKey]
    · simp only [hmInsert, if_neg ha, countKey, ih]
      omega

theorem countKey_hmRemove_ne {V : Type} (k k' : Nat) (r : List (Nat × V))
    (hne : k' ≠ k) : countKey k (hmRemove k' r) = countKey k r := by
  induction r with
  | nil => rfl
  | cons p rest ih =>
    obtain ⟨a, b⟩ := p
    by_cases ha : a = k'
    · subst ha
      simp [hmRemove, countKey, hne]
    · simp [hmRemove, ha, countKey, ih]

theorem countKey_hmRemove_self {V : Type} (k : Nat) (r : List (Nat × V)) :
    countKey k (hmRemove k r) = countKey k r - 1 := by
  induction r with
  | nil => rfl
  | cons p rest ih =>
    obtain ⟨a, b⟩ := p
    by_cases ha : a = k
    · subst ha
      simp [hmRemove, countKey]
    · simp only [hmRemove, if_neg ha, countKey, ih]
      have : countKey k rest - 1 ≤ countKey k rest := Nat.sub_le _ _
      omega

theorem applyCbOps_at_most_one {V : Type} (ops : List (CbOp V)) :
    ∀ (r : List (Nat × V)), (∀ j, countKey j r ≤ 1) →
      ∀ j, countKey j (applyCbOps ops r) ≤ 1 := by
  induction ops with
  | nil => intro r h j; exact h j
  | cons op rest ih =>
    intro r h j
    cases op with
    | set k v =>
      apply ih
      intro j'
      by_cases hk : j' = k
      · subst hk
        rw [set_token_callback_reg, countKey_hmInsert_self, countKey_hmRemove_self]
        have := h j'
        omega
      · rw [set_token_callback_reg, countKey_hmInsert_ne _ _ _ _ (fun he => hk he.symm),
          countKey_hmRemove_ne _ _ _ (fun he => hk he.symm)]
        exact h j'
    | clear k =>
      apply ih
      intro j'
      by_cases hk : j' = k
      · subst hk
        rw [clear_token_callback_reg, countKey_hmRemove_self]
        have := h j'
        omega
      · rw [clear_token_callback_reg, countKey_hmRemove_ne _ _ _ (fun he => hk he.symm)]
        exact h j'

theorem mem_hmInsert {V : Type} (k : Nat) (v v' : V) (r : List (Nat × V))
    (hmem : (k, v') ∈ hmInsert k v r) : v' = v ∨ (k, v') ∈ r := by
  induction r with
  | nil =>
    have hmem2 : (k, v') ∈ [(k, v)] := hmem
    exact Or.inl (Prod.ext_iff.1 (List.mem_singleton.1 hmem2)).2
  | cons p rest ih =>
    obtain ⟨a, b⟩ := p
    have hmem2 : (k, v') ∈ (if a = k then (k, v) :: rest else (a, b) :: hmInsert k v rest) :=
      hmem
    by_cases ha : a = k
    · rw [if_pos ha] at hmem2
      rcases List.mem_cons.1 hmem2 with he | hm
      · exact Or.inl (Prod.ext_iff.1 he).2
      · exact Or.inr (List.mem_cons_of_mem _ hm)
    · rw [if_neg ha] at hmem2
      rcases List.mem_cons.1 hmem2 with he | hm
      · exact Or.inr (List.mem_cons.2 (Or.inl he))
      · rcases ih hm with h' | h'
        · exact Or.inl h'
        · exact Or.inr (List.mem_cons_of_mem _ h')

theorem not_mem_of_countKey_zero {V : Type} (k : Nat) (v' : V) (r : List (Nat × V))
    (h : countKey k r = 0) : (k, v') ∉ r := by
  induction r with
  | nil => simp
  | cons p rest ih =>
    obtain ⟨a, b⟩ := p
    by_cases ha : a = k
    · subst ha
      simp [countKey] at h
    · simp only [countKey, if_neg ha, Nat.zero_add] at h
      intro hmem
      rcases List.mem_cons.1 hmem with he | hmem'
      · exact ha ((Prod.ext_iff.1 he).1).symm
      · exact ih h hmem'

theorem hmLookup_hmInsert_self {V : Type} (k : Nat) (v : V) (r : List (Nat × V)) :
    hmLookup k (hmInsert k v r) = some v := by
  induction r with
  | nil => simp [hmInsert, hmLookup, List.find?]
  | cons p rest ih =>
    obtain ⟨a, b⟩ := p
    by_cases ha : a = k
    · subst ha
      simp [hmInsert, hmLookup, List.find?]
    · have hbeq : (a == k) = false := by
        simpa using ha
      simp only [hmInsert, if_neg ha, hmLookup, List.find?, hbeq]
      exact ih

/-- C7: over any sequence of `set_token_callback` and
`clear_token_callback` calls starting from the empty registry, each
engine key holds at most one callback entry; and setting a new callback
for a key replaces the previously stored one — afterwards that key's
only entry is the new callback, and it is the one the lookup the
trampoline uses returns. -/
theorem c7_callback_registry {V : Type} (ops : List (CbOp V)) (k : Nat) (v v' : V)
    (r : List (Nat × V)) :
    countKey k (applyCbOps ops []) ≤ 1 ∧
    (countKey k r ≤ 1 → (k, v') ∈ set_token_callback_reg k v r → v' = v) ∧
    hmLookup k (set_token_callback_reg k v r) = some v := by
  refine ⟨applyCbOps_at_most_one ops [] (fun j => by simp [countKey]) k, ?_, ?_⟩
  · intro hinv hmem
    have hz : countKey k (hmRemove k r) = 0 := by
      rw [countKey_hmRemove_self]
      omega
    rcases mem_hmInsert k v v' (hmRemove k r) hmem with h | h
    · exact h
    · exact absurd h (not_mem_of_countKey_zero k v' (hmRemove k r) hz)
  · exact hmLookup_hmInsert_self k v (hmRemove k r)

theorem c7_callback_registry_witness :
    countKey 1 (applyCbOps [CbOp.set 1 10, CbOp.set 1 20, CbOp.clear 1, CbOp.set 1 30] []) ≤ 1 ∧
    (5 : Nat) = 5 ∧
    hmLookup 1 (set_token_callback_reg 1 (5 : Nat) [(1, 10)]) = some 5 := by
  obtain ⟨h1, h2, h3⟩ := c7_callback_registry
    [CbOp.set 1 10, CbOp.set 1 20, CbOp.clear 1, CbOp.set 1 30] 1 (5 : Nat) 5 [(1, 10)]
  exact ⟨h1, h2 (by decide) (by decide), h3⟩

/-- C2 (amended): `stop` sets the stop flag and joins the audio thread
first.  A capture failure reported by the audio thread is surfaced as
the returned error as-is — the inference thread is not joined in that
case and the accumulated partial text is not attached to the error.
When the audio thread succeeded, the inference thread is joined and its
result is returned. -/
theorem c2_stop_amended (h : HandleState) (e : CoreError)
    (res : Except CoreError String) :
    (StreamingHandle.stop h).2.stopFlag = true ∧
    (h.audioJoin = JoinOutcome.returned (Except.error e) →
      (StreamingHandle.stop h).1 = Except.error e) ∧
    (h.audioJoin = JoinOutcome.returned (Except.ok ()) →
      h.inferenceJoin = JoinOutcome.returned res →
      (StreamingHandle.stop h).1 = res) := by
  refine ⟨?_, ?_, ?_⟩
  · cases ha : h.audioJoin with
    | panicked => simp [StreamingHandle.stop, ha]
    | returned r =>
      cases r with
      | error e' => simp [StreamingHandle.stop, ha]
      | ok u =>
        cases hi : h.inferenceJoin with
        | panicked => simp [StreamingHandle.stop, ha, hi]
        | returned res' => simp [StreamingHandle.stop, ha, hi]
  · intro ha
    simp [StreamingHandle.stop, ha]
  · intro ha hi
    simp [StreamingHandle.stop, ha, hi]

theorem c2_stop_amended_witness :
    (StreamingHandle.stop
      { stopFlag := false,
        audioJoin := JoinOutcome.returned
          (Except.error (CoreError.AudioProcessing "Audio capture failed")),
        inferenceJoin := JoinOutcome.returned (Except.ok "partial"),
        accumulated := "partial" }).1
      = Except.error (CoreError.AudioProcessing "Audio capture failed") ∧
    (StreamingHandle.stop
      { stopFlag := false,
        audioJoin := JoinOutcome.returned (Except.ok ()),
        inferenceJoin := JoinOutcome.returned (Except.ok "done"),
        accumulated := "done" }).1 = Except.ok "done" := by
  obtain ⟨_, h2, _⟩ := c2_stop_amended
    { stopFlag := false,
      audioJoin := JoinOutcome.returned
        (Except.error (CoreError.AudioProcessing "Audio capture failed")),
      inferenceJoin := JoinOutcome.returned (Except.ok "partial"),
      accumulated := "partial" }
    (CoreError.AudioProcessing "Audio capture failed") (Except.ok "partial")
  obtain ⟨_, _, h3⟩ := c2_stop_amended
    { stopFlag := false,
      audioJoin := JoinOutcome.returned (Except.ok ()),
      inferenceJoin := JoinOutcome.returned (Except.ok "done"),
      accumulated := "done" }
    (CoreError.Config "unused") (Except.ok "done")
  exact ⟨h2 rfl, h3 rfl rfl⟩

/-- C2 counterexample: a session whose audio thread failed while the
accumulated text is "partial".  `stop` returns the bare
`AudioProcessing("Audio capture failed")` error; the accumulated text is
still "partial", but the returned error does not carry it — its detail
string does not contain "partial" — so the error path does not carry the
accumulated text as context, contrary to the claim. -/
theorem c2_stop_counterexample :
    (StreamingHandle.stop
      { stopFlag := false,
        audioJoin := JoinOutcome.returned
          (Except.error (CoreError.AudioProcessing "Audio capture failed")),
        inferenceJoin := JoinOutcome.returned (Except.ok "partial text"),
        accumulated := "partial" }).1
      = Except.error (CoreError.AudioProcessing "Audio capture failed") ∧
    (StreamingHandle.stop
      { stopFlag := false,
        audioJoin := JoinOutcome.returned
          (Except.error (CoreError.AudioProcessing "Audio capture failed")),
        inferenceJoin := JoinOutcome.returned (Except.ok "partial text"),
        accumulated := "partial" }).2.accumulated = "partial" ∧
    ¬ errorCarriesText (CoreError.AudioProcessing "Audio capture failed") "partial" := by
  refine ⟨rfl, rfl, ?_⟩
  intro hc
  have : listHasInfix "partial".data
      (CoreError.detail (CoreError.AudioProcessing "Audio capture failed")).data = false := by
    decide
  rw [errorCarriesText] at hc
  simp [this] at hc

/-- C5: the claim fails on the code.  For a session in which the engine
emits the single token "a" (and, per the spec's engine contract, returns
the assembled final text "a"), `stop()` returns `Ok "a"` while the
accumulated text — which `current_text()` snapshots, before or after
`stop` — is `""`, because the registry trampoline's failed downcast
means tokens are never appended.  The two are not identical. -/
theorem c5_stop_vs_current_text :
    (StreamingHandle.stop (runStreamingSession ["a"] (Except.ok ()))).1 = Except.ok "a" ∧
    current_text (StreamingHandle.stop (runStreamingSession ["a"] (Except.ok ()))).2 = "" ∧
    ("a" : String) ≠ "" := by
  exact ⟨rfl, rfl, by decide⟩

theorem removeFirst_some_decomp (sid : Nat) :
    ∀ (l : List (Nat × RegSession)) (s : RegSession) (rest : List (Nat × RegSession)),
      removeFirst sid l = some (s, rest) →
      ∃ A B, l = A ++ (sid, s) :: B ∧ rest = A ++ B ∧ ∀ p ∈ A, p.1 ≠ sid := by
  intro l
  induction l with
  | nil =>
    intro s rest h
    exact absurd h (by simp [removeFirst])
  | cons q tail ih =>
    intro s rest h
    obtain ⟨k, s'⟩ := q
    by_cases hk : k = sid
    · subst hk
      simp only [removeFirst, if_pos rfl] at h
      have h2 := Option.some.inj h
      have hs : s' = s := congrArg Prod.fst h2
      have ht : tail = rest := congrArg Prod.snd h2
      refine ⟨[], tail, ?_, ?_, by simp⟩
      · rw [List.nil_append, hs]
      · rw [List.nil_append]
        exact ht.symm
    · simp only [removeFirst, if_neg hk] at h
      cases hrec : removeFirst sid tail with
      | none =>
        rw [hrec] at h
        simp at h
      | some q2 =>
        rw [hrec] at h
        obtain ⟨s0, rest0⟩ := q2
        simp only [Option.map_some'] at h
        have h2 := Option.some.inj h
        have hs : s0 = s := congrArg Prod.fst h2
        have hr : (k, s') :: rest0 = rest := congrArg Prod.snd h2
        obtain ⟨A, B, hl, hrest0, hA⟩ := ih s0 rest0 hrec
        subst hs
        refine ⟨(k, s') :: A, B, ?_, ?_, ?_⟩
        · rw [List.cons_append, ← hl]
        · rw [← hr, List.cons_append, ← hrest0]
        · intro p hp
          rcases List.mem_cons.1 hp with he | hm
          · subst he
            exact hk
          · exact hA p hm

theorem find?_of_not_key (sid : Nat) (L : List (Nat × RegSession))
    (h : sid ∉ L.map (fun p => p.1)) :
    List.find? (fun p => p.1 == sid) L = none := by
  rw [List.find?_eq_none]
  intro x hx hbeq
  exact h (List.mem_map.2 ⟨x, hx, by simpa using hbeq⟩)

theorem keys_split (A B : List (Nat × RegSession)) (sid : Nat) (s : RegSession)
    (hnd : keysNodup (A ++ (sid, s) :: B)) :
    sid ∉ A.map (fun p => p.1) ∧ sid ∉ B.map (fun p => p.1) := by
  rw [keysNodup, List.map_append, List.map_cons] at hnd
  obtain ⟨hA, hB, hdisj⟩ := List.nodup_append.1 hnd
  exact ⟨fun hmem => hdisj hmem (List.mem_cons_self _ _), (List.nodup_cons.1 hB).1⟩

/-- C8: session ids handed out by successive `start_streaming_session`
calls are strictly increasing; and when `stop_streaming_session`
succeeds (returns `Ok`), the stopped id is no longer found in the active
registry (given the registry's ids are pairwise distinct, as the counter
guarantees). -/
theorem c8_session_ids (r : SessionRegistry) (s1 s2 : RegSession) (sid : Nat) :
    (start_streaming_session r s1).1
      < (start_streaming_session (start_streaming_session r s1).2 s2).1 ∧
    (keysNodup r.sessions → (∃ t, (stop_streaming_session r sid).1 = Except.ok t) →
      sessionFind sid (stop_streaming_session r sid).2.sessions = none) := by
  constructor
  · simp [start_streaming_session]
  · intro hnd ⟨t, ht⟩
    cases hrem : removeFirst sid r.sessions with
    | none =>
      rw [stop_streaming_session, hrem] at ht
      exact absurd ht (by simp)
    | some q =>
      obtain ⟨s, rest⟩ := q
      by_cases hsh : s.shared
      · rw [stop_streaming_session, hrem] at ht
        simp only [if_pos hsh] at ht
        exact absurd ht (by simp)
      · have hsess : (stop_streaming_session r sid).2.sessions = rest := by
          rw [stop_streaming_session, hrem]
          simp [hsh]
        obtain ⟨A, B, hl, hrest, _⟩ := removeFirst_some_decomp sid r.sessions s rest hrem
        obtain ⟨hsidA, hsidB⟩ := keys_split A B sid s (hl ▸ hnd)
        rw [hsess, hrest, sessionFind, List.find?_append,
          find?_of_not_key sid A hsidA, find?_of_not_key sid B hsidB]
        rfl

theorem c8_session_ids_witness :
    (start_streaming_session exampleRegistry okSession).1
      < (start_streaming_session (start_streaming_session exampleRegistry okSession).2
          okSession).1 ∧
    sessionFind 1 (stop_streaming_session exampleRegistry 1).2.sessions = none := by
  obtain ⟨h1, h2⟩ := c8_session_ids exampleRegistry okSession okSession 1
  exact ⟨h1, h2 (by rw [keysNodup]; decide) ⟨"x", rfl⟩⟩

/-- C9: for a session id that is not in the active registry,
`get_streaming_text` returns the empty string and
`is_streaming_session_active` returns `false`; both are total functions
of the registry state (no error, no panic). -/
theorem c9_unknown_session (r : SessionRegistry) (sid : Nat)
    (h : sessionFind sid r.sessions = none) :
    get_streaming_text r sid = "" ∧ is_streaming_session_active r sid = false := by
  rw [get_streaming_text, is_streaming_session_active, h]
  exact ⟨rfl, rfl⟩

theorem c9_unknown_session_witness :
    get_streaming_text exampleRegistry 9 = "" ∧
    is_streaming_session_active exampleRegistry 9 = false :=
  c9_unknown_session exampleRegistry 9 rfl

/-- C10: if `stop_streaming_session` finds the session but its `Arc` is
still shared, it returns the "still in use" error and pushes the pair
back under the same id: the resulting session vector is a permutation of
the old one, the session is still found under its id, and (with distinct
ids) every id lookup is unchanged, so the session remains pollable and
stoppable; for an unregistered id it returns the "not found" error and
the registry is exactly unchanged. -/
theorem c10_failed_stop (r : SessionRegistry) (sid : Nat) (s : RegSession)
    (rest : List (Nat × RegSession)) :
    (removeFirst sid r.sessions = some (s, rest) → s.shared = true →
      (stop_streaming_session r sid).1
        = Except.error (CoreError.Transcription "Streaming session is still in use") ∧
      List.Perm (stop_streaming_session r sid).2.sessions r.sessions ∧
      (keysNodup r.sessions →
        sessionFind sid (stop_streaming_session r sid).2.sessions = some (sid, s) ∧
        ∀ q1 : Nat, sessionFind q1 (stop_streaming_session r sid).2.sessions
          = sessionFind q1 r.sessions)) ∧
    (removeFirst sid r.sessions = none →
      stop_streaming_session r sid
        = (Except.error (CoreError.Transcription "Streaming session not found"), r)) := by
  constructor
  · intro hrem hsh
    have hstop1 : (stop_streaming_session r sid).1
        = Except.error (CoreError.Transcription "Streaming session is still in use") := by
      rw [stop_streaming_session, hrem]
      simp [hsh]
    have hstop2 : (stop_streaming_session r sid).2.sessions = rest ++ [(sid, s)] := by
      rw [stop_streaming_session, hrem]
      simp [hsh]
    obtain ⟨A, B, hl, hrest, _⟩ := removeFirst_some_decomp sid r.sessions s rest hrem
    refine ⟨hstop1, ?_, ?_⟩
    · rw [hstop2, hrest, hl, List.append_assoc]
      exact List.Perm.append_left A (List.perm_append_singleton (sid, s) B)
    · intro hnd
      obtain ⟨hsidA, hsidB⟩ := keys_split A B sid s (hl ▸ hnd)
      have hfA := find?_of_not_key sid A hsidA
      have hfB := find?_of_not_key sid B hsidB
      constructor
      · rw [hstop2, hrest, sessionFind, List.find?_append, List.find?_append, hfA, hfB]
        simp [List.find?]
      · intro q1
        by_cases hq : q1 = sid
        · subst hq
          rw [hstop2, hrest, hl, sessionFind, sessionFind, List.find?_append,
            List.find?_append, List.find?_append, hfA, hfB]
          simp [List.find?]
        · have hbeq : ((sid, s).1 == q1) = false := by
            simp only [beq_eq_false_iff_ne]
            exact fun he => hq he.symm
          have h1 : List.find? (fun p => p.1 == q1) [(sid, s)] = none := by
            rw [List.find?_eq_none]
            intro x hx
            rw [List.mem_singleton.1 hx]
            simp [hbeq]
          have h2 : List.find? (fun p => p.1 == q1) ((sid, s) :: B)
              = List.find? (fun p => p.1 == q1) B := by
            rw [List.find?_cons, hbeq]
          rw [hstop2, hrest, hl, sessionFind, sessionFind, List.find?_append,
            List.find?_append, List.find?_append, h1, h2, Option.or_none]
  · intro h
    rw [stop_streaming_session, h]

theorem c10_failed_stop_witness :
    (stop_streaming_session sharedRegistry 1).1
      = Except.error (CoreError.Transcription "Streaming session is still in use") ∧
    List.Perm (stop_streaming_session sharedRegistry 1).2.sessions
      sharedRegistry.sessions ∧
    sessionFind 1 (stop_streaming_session sharedRegistry 1).2.sessions
      = some (1, sharedSession) ∧
    stop_streaming_session exampleRegistry 9
      = (Except.error (CoreError.Transcription "Streaming session not found"),
          exampleRegistry) := by
  obtain ⟨hA, _⟩ := c10_failed_stop sharedRegistry 1 sharedSession []
  obtain ⟨h1, h2, h3⟩ := hA rfl rfl
  obtain ⟨hfind, _⟩ := h3 (by rw [keysNodup]; decide)
  obtain ⟨_, hN⟩ := c10_failed_stop exampleRegistry 9 sharedSession []
  exact ⟨h1, h2, hfind, hN rfl⟩

theorem liveAppendLoop_samples_extend (growOk : Bool) (ratio : ℚ) :
    ∀ (vals : List ℚ) (buf : QwenLiveAudioModel) (acc : ℚ),
      ∃ t, (liveAppendLoop growOk ratio buf acc vals).1.samples = buf.samples ++ t := by
  intro vals
  induction vals with
  | nil =>
    intro buf acc
    exact ⟨[], by simp [liveAppendLoop]⟩
  | cons sample rest ih =>
    intro buf acc
    by_cases hr : ratio ≤ acc + 1
    · by_cases hc : buf.capacity ≤ buf.n_samples
      · cases growOk with
        | false => exact ⟨[], by simp [liveAppendLoop, hr, hc]⟩
        | true =>
          obtain ⟨t, ht⟩ := ih
            { samples := buf.samples ++ [sample], n_samples := buf.n_samples + 1,
              capacity := buf.capacity * 2 } (acc + 1 - ratio)
          refine ⟨[sample] ++ t, ?_⟩
          rw [show liveAppendLoop true ratio buf acc (sample :: rest)
              = liveAppendLoop true ratio
                  { samples := buf.samples ++ [sample], n_samples := buf.n_samples + 1,
                    capacity := buf.capacity * 2 } (acc + 1 - ratio) rest from by
                simp [liveAppendLoop, hr, hc], ht, List.append_assoc]
      · obtain ⟨t, ht⟩ := ih
          { samples := buf.samples ++ [sample], n_samples := buf.n_samples + 1,
            capacity := buf.capacity } (acc + 1 - ratio)
        refine ⟨[sample] ++ t, ?_⟩
        rw [show liveAppendLoop growOk ratio buf acc (sample :: rest)
            = liveAppendLoop growOk ratio
                { samples := buf.samples ++ [sample], n_samples := buf.n_samples + 1,
                  capacity := buf.capacity } (acc + 1 - ratio) rest from by
              simp [liveAppendLoop, hr, hc], ht, List.append_assoc]
    · obtain ⟨t, ht⟩ := ih buf (acc + 1)
      refine ⟨t, ?_⟩
      rw [show liveAppendLoop growOk ratio buf acc (sample :: rest)
          = liveAppendLoop growOk ratio buf (acc + 1) rest from by
            simp [liveAppendLoop, hr], ht]

theorem liveAppendLoop_n_samples_inv (growOk : Bool) (ratio : ℚ) :
    ∀ (vals : List ℚ) (buf : QwenLiveAudioModel) (acc : ℚ),
      buf.n_samples = buf.samples.length →
      (liveAppendLoop growOk ratio buf acc vals).1.n_samples
        = (liveAppendLoop growOk ratio buf acc vals).1.samples.length := by
  intro vals
  induction vals with
  | nil =>
    intro buf acc h
    simpa [liveAppendLoop] using h
  | cons sample rest ih =>
    intro buf acc h
    by_cases hr : ratio ≤ acc + 1
    · by_cases hc : buf.capacity ≤ buf.n_samples
      · cases growOk with
        | false => simpa [liveAppendLoop, hr, hc] using h
        | true =>
          rw [show liveAppendLoop true ratio buf acc (sample :: rest)
              = liveAppendLoop true ratio
                  { samples := buf.samples ++ [sample], n_samples := buf.n_samples + 1,
                    capacity := buf.capacity * 2 } (acc + 1 - ratio) rest from by
                simp [liveAppendLoop, hr, hc]]
          exact ih _ _ (by simp [h])
      · rw [show liveAppendLoop growOk ratio buf acc (sample :: rest)
            = liveAppendLoop growOk ratio
                { samples := buf.samples ++ [sample], n_samples := buf.n_samples + 1,
                  capacity := buf.capacity } (acc + 1 - ratio) rest from by
              simp [liveAppendLoop, hr, hc]]
        exact ih _ _ (by simp [h])
    · rw [show liveAppendLoop growOk ratio buf acc (sample :: rest)
          = liveAppendLoop growOk ratio buf (acc + 1) rest from by
            simp [liveAppendLoop, hr]]
      exact ih _ _ h

/-- C3 (amended): when growing the buffer fails inside the audio
callback, the callback drops the current sample and the remainder of the
block and returns with the buffer exactly unchanged — already-buffered
data is never corrupted (for any outcome of the loop, the previous
samples remain a prefix and `n_samples` keeps tracking the stored
length) — but the capture is not frozen and the condition is not
recorded: the callback's outputs carry no error, so nothing is surfaced
at `stop()`. -/
theorem c3_grow_failure_amended (growOk : Bool) (ratio : ℚ) (buf : QwenLiveAudioModel)
    (acc : ℚ) (vals : List ℚ) (sample : ℚ) (rest : List ℚ) :
    (∃ t, (liveAppendLoop growOk ratio buf acc vals).1.samples = buf.samples ++ t) ∧
    (buf.n_samples = buf.samples.length →
      (liveAppendLoop growOk ratio buf acc vals).1.n_samples
        = (liveAppendLoop growOk ratio buf acc vals).1.samples.length) ∧
    (buf.capacity ≤ buf.n_samples → ratio ≤ acc + 1 →
      liveAppendLoop false ratio buf acc (sample :: rest) = (buf, acc + 1)) := by
  refine ⟨liveAppendLoop_samples_extend growOk ratio vals buf acc,
    fun h => liveAppendLoop_n_samples_inv growOk ratio vals buf acc h, ?_⟩
  intro hc hr
  simp [liveAppendLoop, hr, hc]

theorem c3_grow_failure_amended_witness :
    (∃ t, (liveAppendLoop false 1 ⟨[1, 2], 2, 2⟩ 0 [3]).1.samples = [1, 2] ++ t) ∧
    (liveAppendLoop false 1 ⟨[1, 2], 2, 2⟩ 0 [3]).1.n_samples
      = (liveAppendLoop false 1 ⟨[1, 2], 2, 2⟩ 0 [3]).1.samples.length ∧
    liveAppendLoop false 1 ⟨[1, 2], 2, 2⟩ 0 [3, 5] = (⟨[1, 2], 2, 2⟩, 0 + 1) := by
  obtain ⟨h1, h2, h3⟩ := c3_grow_failure_amended false 1 ⟨[1, 2], 2, 2⟩ 0 [3] 3 [5]
  exact ⟨h1, h2 rfl, h3 (by decide) (by norm_num)⟩

/-- C3 counterexample: a full buffer (`samples = [1, 2]`,
`n_samples = capacity = 2`) whose `realloc` fails.  The callback drops
the block and leaves the buffer unchanged (no corruption), but (a) a
later callback whose `realloc` succeeds appends again — the session does
not stop accepting samples; and (b) the failure is recorded nowhere: for
a session whose audio thread returned `Ok`, `stop()` returns the
inference result `Ok "x"`, not a capture failure, because the data
callback has no error channel at all. -/
theorem c3_grow_failure_counterexample :
    audioDataCallback false 1 1 false ⟨[1, 2], 2, 2⟩ 0 [[3]] = (⟨[1, 2], 2, 2⟩, 1) ∧
    audioDataCallback true 1 1 false ⟨[1, 2], 2, 2⟩ 0 [[4]] = (⟨[1, 2, 4], 3, 4⟩, 0) ∧
    (StreamingHandle.stop okHandle).1 = Except.ok "x" := by
  refine ⟨?_, ?_, rfl⟩
  · norm_num [audioDataCallback, liveAppendLoop]
  · norm_num [audioDataCallback, liveAppendLoop]
